import Mathlib

/-!
Shallow embedding of the `gsm` configuration library (reference parser,
array-value parser, resolver, tag parser, struct loader) and proofs about it.

Strings are handled through their character lists so that every definition
is executable and kernel-reducible.  Each definition carries a comment naming
the Go function it embeds.  The process environment and the secret-store
client are passed explicitly as functions (`String → Option String`), since
the Go code reaches them through `os.LookupEnv` and `Client.GetSecret`.
-/

namespace Gsm

/-! ### Go string helpers -/

/-- The character class trimmed by `strings.TrimSpace` (Latin-1 range of
`unicode.IsSpace`; the rarely used wide Unicode space characters are not
modelled, no claim depends on them). -/
def isGoSpace (c : Char) : Bool :=
  c = ' ' || c = '\t' || c = '\n' || c = '\x0b' || c = '\x0c' || c = '\r' ||
    c = '\x85' || c = '\xa0'

/-- `strings.TrimSpace` on a character list. -/
def goTrimList (l : List Char) : List Char :=
  ((l.dropWhile isGoSpace).reverse.dropWhile isGoSpace).reverse

/-- `strings.TrimSpace`. -/
def goTrimSpace (s : String) : String :=
  String.mk (goTrimList s.data)

/-- `strings.SplitN (·) sep 2` on character lists: split at the first
occurrence of `sep`; `none` when `sep` does not occur. -/
def splitOnFirstAux (sep : List Char) : List Char → Option (List Char × List Char)
  | [] => none
  | c :: cs =>
    if sep.isPrefixOf (c :: cs) then some ([], (c :: cs).drop sep.length)
    else
      match splitOnFirstAux sep cs with
      | some (a, b) => some (c :: a, b)
      | none => none

/-- `strings.Split (·) sep` for a one-character separator, as used for the
comma splits in `parseTag` and `parseArrayValue`. -/
def splitOnChar (c : Char) : List Char → List (List Char)
  | [] => [[]]
  | x :: xs =>
    if x = c then [] :: splitOnChar c xs
    else
      match splitOnChar c xs with
      | h :: t => (x :: h) :: t
      | [] => [[x]]

/-! ### Reference parser (`parser.go`) -/

/-- `SecretPrefix = "sm://"`. -/
def secretPrefixChars : List Char := ['s', 'm', ':', '/', '/']

/-- `DefaultSeparator = "||"`. -/
def separatorChars : List Char := ['|', '|']

/-- `SecretRef` from `parser.go`. -/
structure SecretRef where
  SecretName : String
  DefaultValue : String
  HasDefault : Bool
  IsSecretRef : Bool
  deriving DecidableEq, Repr

/-- `Parse` from `parser.go`: `strings.CutPrefix` on `"sm://"`, then
`strings.SplitN` on the first `"||"`, key trimmed, default untrimmed. -/
def Parse (value : String) : SecretRef :=
  if secretPrefixChars.isPrefixOf value.data then
    match splitOnFirstAux separatorChars (value.data.drop secretPrefixChars.length) with
    | some (before, fb) =>
      { SecretName := String.mk (goTrimList before), DefaultValue := String.mk fb,
        HasDefault := true, IsSecretRef := true }
    | none =>
      { SecretName := String.mk (goTrimList (value.data.drop secretPrefixChars.length)),
        DefaultValue := "", HasDefault := false, IsSecretRef := true }
  else
    { SecretName := "", DefaultValue := value, HasDefault := true, IsSecretRef := false }

/-- `IsSecretReference` from `parser.go`: `strings.HasPrefix value "sm://"`. -/
def IsSecretReference (value : String) : Bool :=
  secretPrefixChars.isPrefixOf value.data

/-- `ParseSlice` from `parser.go`. -/
def ParseSlice (values : List String) : List SecretRef :=
  values.map Parse

/-! ### Errors (`errors.go`)

Each constructor models one concrete Go error value or dynamic error type;
they are distinguishable exactly as Go distinguishes them with `errors.As`
and `errors.Is`. -/

/-- The error taxonomy of the library.  `jsonArrayParseError` models the
anonymous wrapped error built by `fmt.Errorf` in `parseArrayValue`
(message `failed to parse JSON array`, wrapping the `encoding/json` error);
it is a distinct dynamic type from `InvalidFormatError`, which `errors.go`
declares but no function in the repository ever constructs.  The
`parseIntError`-style constructors model the anonymous wrapped errors built
by `fmt.Errorf` in `setField` for each coercion kind. -/
inductive GsmError where
  | secretNotFound (secretName : String)
  | invalidFormat (value reason : String)
  | requiredField (fieldName secretName : String)
  | unsupportedType (fieldName typeName : String)
  | invalidTarget
  | jsonArrayParseError
  | parseIntError (fieldName : String)
  | parseUintError (fieldName : String)
  | parseFloatError (fieldName : String)
  | parseBoolError (fieldName : String)
  deriving DecidableEq, Repr

/-! ### JSON array-of-strings parsing (`encoding/json.Unmarshal` into `[]string`)

`parseArrayValue` hands the bracketed case to the standard library; this is
an executable model of `json.Unmarshal` restricted to a top-level array of
JSON strings (the only shape that can succeed into `[]string` given that the
input starts with `[`).  Standard escapes are handled; in a `\u` escape an
unpaired surrogate decodes to U+FFFD as in Go, while a valid surrogate pair
is not combined (both halves give U+FFFD) — no claim depends on that corner. -/

/-- JSON insignificant whitespace. -/
def isJsonWs (c : Char) : Bool :=
  c = ' ' || c = '\t' || c = '\n' || c = '\r'

/-- Skip JSON whitespace. -/
def skipJsonWs (l : List Char) : List Char :=
  l.dropWhile isJsonWs

/-- Value of one hex digit. -/
def hexDigitVal (c : Char) : Option Nat :=
  if '0' ≤ c ∧ c ≤ '9' then some (c.toNat - '0'.toNat)
  else if 'a' ≤ c ∧ c ≤ 'f' then some (c.toNat - 'a'.toNat + 10)
  else if 'A' ≤ c ∧ c ≤ 'F' then some (c.toNat - 'A'.toNat + 10)
  else none

/-- Body of a JSON string literal, positioned after the opening quote.
Returns the decoded characters and the remaining input.  `fuel` only bounds
the recursion; any fuel of at least the input length is enough. -/
def parseJsonStringBody (fuel : Nat) (l : List Char) : Option (List Char × List Char) :=
  match fuel with
  | 0 => none
  | fuel + 1 =>
    match l with
    | [] => none
    | '"' :: rest => some ([], rest)
    | '\\' :: rest =>
      match rest with
      | '"' :: r => (parseJsonStringBody fuel r).map (fun p => ('"' :: p.1, p.2))
      | '\\' :: r => (parseJsonStringBody fuel r).map (fun p => ('\\' :: p.1, p.2))
      | '/' :: r => (parseJsonStringBody fuel r).map (fun p => ('/' :: p.1, p.2))
      | 'b' :: r => (parseJsonStringBody fuel r).map (fun p => ('\x08' :: p.1, p.2))
      | 'f' :: r => (parseJsonStringBody fuel r).map (fun p => ('\x0c' :: p.1, p.2))
      | 'n' :: r => (parseJsonStringBody fuel r).map (fun p => ('\n' :: p.1, p.2))
      | 'r' :: r => (parseJsonStringBody fuel r).map (fun p => ('\r' :: p.1, p.2))
      | 't' :: r => (parseJsonStringBody fuel r).map (fun p => ('\t' :: p.1, p.2))
      | 'u' :: h1 :: h2 :: h3 :: h4 :: r =>
        match hexDigitVal h1, hexDigitVal h2, hexDigitVal h3, hexDigitVal h4 with
        | some a, some b, some c, some d =>
          let n := ((a * 16 + b) * 16 + c) * 16 + d
          let ch : Char := if 0xD800 ≤ n ∧ n ≤ 0xDFFF then '�' else Char.ofNat n
          (parseJsonStringBody fuel r).map (fun p => (ch :: p.1, p.2))
        | _, _, _, _ => none
      | _ => none
    | c :: rest =>
      if c.toNat < 0x20 then none
      else (parseJsonStringBody fuel rest).map (fun p => (c :: p.1, p.2))

/-- One or more comma-separated JSON string elements followed by `]`,
positioned at the start of the first element. -/
def parseJsonArrayItems (fuel : Nat) (l : List Char) : Option (List String × List Char) :=
  match fuel with
  | 0 => none
  | fuel + 1 =>
    match skipJsonWs l with
    | '"' :: rest =>
      match parseJsonStringBody (rest.length + 1) rest with
      | none => none
      | some (s, rest2) =>
        match skipJsonWs rest2 with
        | ',' :: rest3 =>
          (parseJsonArrayItems fuel rest3).map (fun p => (String.mk s :: p.1, p.2))
        | ']' :: rest3 => some ([String.mk s], rest3)
        | _ => none
    | _ => none

/-- `json.Unmarshal([]byte s, &arr)` for `arr : []string`, given that the
caller only reaches it with input whose first non-space character is `[`:
a strict JSON array of strings, with nothing but whitespace allowed after
the closing bracket.  `none` models a non-nil unmarshal error. -/
def jsonUnmarshalStringArray (s : String) : Option (List String) :=
  match skipJsonWs s.data with
  | '[' :: rest =>
    match skipJsonWs rest with
    | ']' :: rest2 => if skipJsonWs rest2 = [] then some [] else none
    | _ =>
      match parseJsonArrayItems (s.data.length + 1) rest with
      | some (xs, t) => if skipJsonWs t = [] then some xs else none
      | none => none
  | _ => none

/-- `parseArrayValue` from `resolver.go`: trim, then JSON-array shape,
then comma-separated shape (parts trimmed, empties dropped), then single
value, then empty. -/
def parseArrayValue (value : String) : Except GsmError (List String) :=
  if List.isPrefixOf ['['] (goTrimList value.data) then
    match jsonUnmarshalStringArray (String.mk (goTrimList value.data)) with
    | some arr => Except.ok arr
    | none => Except.error GsmError.jsonArrayParseError
  else if (goTrimList value.data).contains ',' then
    Except.ok (((splitOnChar ',' (goTrimList value.data)).map
      (fun p => String.mk (goTrimList p))).filter (fun s => s ≠ ""))
  else if goTrimList value.data ≠ [] then
    Except.ok [String.mk (goTrimList value.data)]
  else
    Except.ok []

/-! ### Resolver (`resolver.go`)

`os.LookupEnv` is passed in as `env : String → Option String` (`none` means
the variable is not present).  `Client.GetSecret` is modelled as a function
`String → Option String` inside `Client` (`none` means a non-nil error of
any kind: not-found, network, auth); the nilable `*Client` field becomes
`Option Client`. -/

/-- The secret-store client; `getSecret` models `Client.GetSecret`. -/
structure Client where
  getSecret : String → Option String

/-- `Resolver` from `resolver.go`. -/
structure Resolver where
  client : Option Client
  secretManagerEnabled : Bool
  envPrefix : String

/-- `ResolverOption`. -/
def ResolverOption : Type := Resolver → Resolver

/-- `WithSecretManagerEnabled`. -/
def WithSecretManagerEnabled (enabled : Bool) : ResolverOption :=
  fun r => { r with secretManagerEnabled := enabled }

/-- `WithEnvPrefix`. -/
def WithEnvPrefix (p : String) : ResolverOption :=
  fun r => { r with envPrefix := p }

/-- `NewResolver`: `secretManagerEnabled` defaults to `client != nil`,
then the options are applied in order. -/
def NewResolver (client : Option Client) (opts : List ResolverOption) : Resolver :=
  opts.foldl (fun r opt => opt r)
    { client := client, secretManagerEnabled := client.isSome, envPrefix := "" }

/-- The guarded Secret Manager lookup of priority 2: the value obtained
when `r.secretManagerEnabled && r.client != nil` holds and `GetSecret`
returns a nil error, `none` otherwise (tier disabled, no client bound, or
the fetch failed). -/
def Resolver.secretManagerTier (r : Resolver) (key : String) : Option String :=
  if r.secretManagerEnabled then
    match r.client with
    | some c => c.getSecret key
    | none => none
  else none

/-- The fallthrough of `Resolver.Resolve` after the environment tier
(priorities 2 and 3 of the Go function body). -/
def Resolver.resolveTail (r : Resolver) (ref : SecretRef) : Except GsmError String :=
  match Resolver.secretManagerTier r ref.SecretName with
  | some v => Except.ok v
  | none =>
    if ref.HasDefault then
      Except.ok ref.DefaultValue
    else
      Except.error (GsmError.secretNotFound ref.SecretName)

/-- `Resolver.Resolve` from `resolver.go`: parse; non-references return
their carried literal; otherwise environment tier (present and non-empty),
then Secret Manager tier (enabled and client bound, any error swallowed),
then the parsed default, else `SecretNotFoundError`.  The Go locals `ref`
and `envKey` are inlined. -/
def Resolver.Resolve (r : Resolver) (env : String → Option String) (value : String) :
    Except GsmError String :=
  if (Parse value).IsSecretRef = false then
    Except.ok (Parse value).DefaultValue
  else
    match env (r.envPrefix ++ (Parse value).SecretName) with
    | some envValue =>
      if envValue ≠ "" then
        Except.ok envValue
      else
        Resolver.resolveTail r (Parse value)
    | none => Resolver.resolveTail r (Parse value)

/-- The per-element loop at the end of `Resolver.ResolveSlice`: resolve each
element via `Resolve`, first failure aborts. -/
def Resolver.resolveEach (r : Resolver) (env : String → Option String) :
    List String → Except GsmError (List String)
  | [] => Except.ok []
  | v :: rest => do
    let x ← Resolver.Resolve r env v
    let xs ← Resolver.resolveEach r env rest
    Except.ok (x :: xs)

/-- The fallthrough of the single-reference branch of `ResolveSlice` after
the environment tier (priorities 2 and 3 of that branch). -/
def Resolver.resolveSliceTail (r : Resolver) (ref : SecretRef) :
    Except GsmError (List String) :=
  match Resolver.secretManagerTier r ref.SecretName with
  | some v => parseArrayValue v
  | none =>
    if ref.HasDefault then
      parseArrayValue ref.DefaultValue
    else
      Except.error (GsmError.secretNotFound ref.SecretName)


/-- `Resolver.ResolveSlice` from `resolver.go`: empty list returns empty;
a single secret reference runs the same three tiers with each obtained
string fed through `parseArrayValue`; anything else resolves each element
independently. -/
def Resolver.ResolveSlice (r : Resolver) (env : String → Option String)
    (values : List String) : Except GsmError (List String) :=
  match values with
  | [] => Except.ok []
  | [v] =>
    if IsSecretReference v then
      match env (r.envPrefix ++ (Parse v).SecretName) with
      | some envValue =>
        if envValue ≠ "" then
          parseArrayValue envValue
        else
          Resolver.resolveSliceTail r (Parse v)
      | none => Resolver.resolveSliceTail r (Parse v)
    else
      Resolver.resolveEach r env [v]
  | vs => Resolver.resolveEach r env vs

/-! ### `strconv` models

The loader coerces resolved strings through `strconv.ParseInt`,
`strconv.ParseUint`, `strconv.ParseFloat` and `strconv.ParseBool`; these are
executable models of those standard-library functions at the fidelity the
claims need.  A `none` result models a non-nil error of any kind (syntax or
range), which is all the loader ever inspects. -/

/-- ASCII decimal digits to a number; `none` on an empty list or any
non-digit (base 10 in `strconv` admits only `0`–`9`). -/
def digitsToNat : List Char → Option Nat
  | [] => none
  | l => l.foldl (fun acc c =>
      match acc with
      | none => none
      | some n => if '0' ≤ c ∧ c ≤ '9' then some (n * 10 + (c.toNat - '0'.toNat)) else none)
      (some 0)

/-- `strconv.ParseInt s 10 64`: optional sign, decimal digits, value in the
`int64` range; Go range errors carry a non-nil error, so they are `none`
here too. -/
def goParseInt64 (s : String) : Option Int :=
  let (neg, ds) : Bool × List Char :=
    match s.data with
    | '+' :: r => (false, r)
    | '-' :: r => (true, r)
    | r => (false, r)
  match digitsToNat ds with
  | none => none
  | some n =>
    let v : Int := if neg then -(n : Int) else (n : Int)
    if -(2 ^ 63) ≤ v ∧ v < 2 ^ 63 then some v else none

/-- `strconv.ParseUint s 10 64`: no sign permitted, decimal digits, value
below `2^64`. -/
def goParseUint64 (s : String) : Option Nat :=
  match digitsToNat s.data with
  | none => none
  | some n => if n < 2 ^ 64 then some n else none

/-- `strconv.ParseBool`: exactly the listed literals. -/
def goParseBool (s : String) : Option Bool :=
  if s = "1" ∨ s = "t" ∨ s = "T" ∨ s = "TRUE" ∨ s = "true" ∨ s = "True" then some true
  else if s = "0" ∨ s = "f" ∨ s = "F" ∨ s = "FALSE" ∨ s = "false" ∨ s = "False" then
    some false
  else none

/-- Mantissa of a decimal float: digits possibly containing one dot, with at
least one digit overall. -/
def decMantissaOk (l : List Char) : Bool :=
  let isDigit := fun c : Char => decide ('0' ≤ c ∧ c ≤ '9')
  let intPart := l.takeWhile isDigit
  let rest := l.drop intPart.length
  match rest with
  | [] => decide (intPart ≠ [])
  | '.' :: frac => frac.all isDigit && decide (intPart ≠ [] ∨ frac ≠ [])
  | _ => false

/-- Syntax accepted by `strconv.ParseFloat s 64`, decimal forms: optional
sign; `inf`/`infinity` (case-insensitive, sign allowed) and `nan`
(case-insensitive, unsigned); otherwise a decimal mantissa with an optional
`e`/`E` exponent.  Hexadecimal literals and underscore digit separators,
which Go also accepts, are not modelled — no claim depends on them. -/
def goParseFloatOk (s : String) : Bool :=
  let lower := String.mk (s.data.map Char.toLower)
  if lower = "nan" then true
  else
    let body : List Char :=
      match lower.data with
      | '+' :: r => r
      | '-' :: r => r
      | r => r
    if body = ['i', 'n', 'f'] ∨ body = String.data "infinity" then true
    else
      match splitOnFirstAux ['e'] body with
      | some (m, e) => decMantissaOk m && decide (e ≠ []) &&
          (match e with
           | '+' :: d => d.all (fun c => decide ('0' ≤ c ∧ c ≤ '9')) && decide (d ≠ [])
           | '-' :: d => d.all (fun c => decide ('0' ≤ c ∧ c ≤ '9')) && decide (d ≠ [])
           | d => d.all (fun c => decide ('0' ≤ c ∧ c ≤ '9')))
      | none => decMantissaOk body

/-! ### Struct loader (`loader.go`)

Reflection is embedded as the closed variant of field kinds the `setField`
switch dispatches on; a target struct is a list of `FieldSpec`s in
declaration order, and `loadStruct` produces the field values the Go code
would leave in a freshly zeroed target (skipped and swallowed fields keep
the zero value, as in `Load`'s documented use on a fresh struct).  The
pointer-validity check of `Load` (`ErrInvalidTarget`) concerns `reflect`
machinery outside the claims and is not modelled beyond its error value. -/

/-- The integer widths of the Go integer kinds; `int` and `uint` are
64 bits on the targets this library runs on. -/
inductive IntWidth where
  | w8
  | w16
  | w32
  | w64
  deriving DecidableEq, Repr

/-- Bit count of a width. -/
def IntWidth.bits : IntWidth → Nat
  | .w8 => 8
  | .w16 => 16
  | .w32 => 32
  | .w64 => 64

/-- The closed set of field kinds the `setField` switch distinguishes.
`unsupported` stands for every other `reflect.Kind` (and for slices of
non-string element type), carrying the Go type name. -/
inductive FieldKind where
  | str
  | intKind (w : IntWidth)
  | uintKind (w : IntWidth)
  | floatKind (bits : Nat)
  | boolKind
  | sliceString
  | unsupported (typeName : String)
  deriving DecidableEq, Repr

/-- A runtime field value.  `floatVal` records the accepted literal rather
than a rounded IEEE value: no claim inspects float contents. -/
inductive FieldValue where
  | strVal (s : String)
  | intVal (w : IntWidth) (n : Int)
  | uintVal (w : IntWidth) (n : Nat)
  | floatVal (bits : Nat) (lit : Option String)
  | boolVal (b : Option Bool)
  | strListVal (l : Option (List String))
  deriving DecidableEq, Repr

/-- The zero value a freshly allocated Go struct holds in a field of each
kind (for `unsupported` the untouched contents, observed only as "not set"). -/
def zeroValue : FieldKind → FieldValue
  | .str => .strVal ""
  | .intKind w => .intVal w 0
  | .uintKind w => .uintVal w 0
  | .floatKind bits => .floatVal bits none
  | .boolKind => .boolVal none
  | .sliceString => .strListVal none
  | .unsupported _ => .strVal ""

/-- `reflect.Value.SetInt` on a field of width `w`: the `int64` is converted
by two's-complement truncation to the declared width (Go's `int8(x)` etc.
conversions truncate; they do not fail). -/
def setIntTrunc (w : IntWidth) (x : Int) : Int :=
  let m := x.emod (2 ^ w.bits)
  if m ≥ 2 ^ (w.bits - 1) then m - 2 ^ w.bits else m

/-- `reflect.Value.SetUint` on a field of width `w`: truncation mod `2^w`. -/
def setUintTrunc (w : IntWidth) (x : Nat) : Nat :=
  x % 2 ^ w.bits

/-- `tagInfo` from `loader.go`. -/
structure tagInfo where
  secretName : String
  defaultValue : String
  hasDefault : Bool
  required : Bool
  deriving DecidableEq, Repr

/-- One iteration of the `parseTag` loop over the segments after the key. -/
def parseTagStep (info : tagInfo) (part0 : List Char) : tagInfo :=
  let part := goTrimList part0
  if part = String.data "required" then
    { info with required := true }
  else if List.isPrefixOf (String.data "default=") part then
    { info with defaultValue := String.mk (part.drop 8), hasDefault := true }
  else info

/-- `parseTag` from `loader.go`: split on commas, trimmed first segment is
the key, then scan the remaining trimmed segments for `required` and
`default=`. -/
def parseTag (tag : String) : tagInfo :=
  ((splitOnChar ',' tag.data).drop 1).foldl parseTagStep
    { secretName := String.mk (goTrimList ((splitOnChar ',' tag.data).headD [])),
      defaultValue := "", hasDefault := false, required := false }

/-- `Loader` from `loader.go`. -/
structure Loader where
  resolver : Resolver

/-- `NewLoader`. -/
def NewLoader (client : Option Client) (opts : List ResolverOption) : Loader :=
  { resolver := NewResolver client opts }

/-- `Loader.setField` from `loader.go`: scalar resolve then per-kind
coercion; `[]string` fields go through `ResolveSlice` with the synthesized
expression as single element; any other kind is `UnsupportedTypeError`. -/
def Loader.setField (l : Loader) (env : String → Option String) (kind : FieldKind)
    (fieldName : String) (refString : String) : Except GsmError FieldValue :=
  match kind with
  | .str => do
    let value ← Resolver.Resolve l.resolver env refString
    Except.ok (FieldValue.strVal value)
  | .intKind w => do
    let value ← Resolver.Resolve l.resolver env refString
    match goParseInt64 value with
    | none => Except.error (GsmError.parseIntError fieldName)
    | some n => Except.ok (FieldValue.intVal w (setIntTrunc w n))
  | .uintKind w => do
    let value ← Resolver.Resolve l.resolver env refString
    match goParseUint64 value with
    | none => Except.error (GsmError.parseUintError fieldName)
    | some n => Except.ok (FieldValue.uintVal w (setUintTrunc w n))
  | .floatKind bits => do
    let value ← Resolver.Resolve l.resolver env refString
    if goParseFloatOk value then
      Except.ok (FieldValue.floatVal bits (some value))
    else
      Except.error (GsmError.parseFloatError fieldName)
  | .boolKind => do
    let value ← Resolver.Resolve l.resolver env refString
    match goParseBool value with
    | none => Except.error (GsmError.parseBoolError fieldName)
    | some b => Except.ok (FieldValue.boolVal (some b))
  | .sliceString => do
    let values ← Resolver.ResolveSlice l.resolver env [refString]
    Except.ok (FieldValue.strListVal (some values))
  | .unsupported typeName =>
    Except.error (GsmError.unsupportedType fieldName typeName)

/-- One field of a target struct: name, `gsm` tag (`""` when absent), kind,
and whether `reflect` can set it (exported). -/
structure FieldSpec where
  name : String
  tag : String
  kind : FieldKind
  settable : Bool
  deriving DecidableEq, Repr

/-- The reference expression `loadStruct` synthesizes from a parsed tag:
`fmt.Sprintf` of `sm://KEY` with `||FALLBACK` appended when a default was
given. -/
def refStringOf (ti : tagInfo) : String :=
  if ti.hasDefault then "sm://" ++ ti.secretName ++ "||" ++ ti.defaultValue
  else "sm://" ++ ti.secretName

/-- The body of the `loadStruct` loop for one field: the skip conditions,
the synthesized `sm://` expression, `setField`, and the required-field
policy (error swallowed into the zero value when `required` is false). -/
def Loader.processField (l : Loader) (env : String → Option String) (f : FieldSpec) :
    Except GsmError FieldValue :=
  if f.settable = false then Except.ok (zeroValue f.kind)
  else if f.tag = "" ∨ f.tag = "-" then Except.ok (zeroValue f.kind)
  else if (parseTag f.tag).secretName = "" then Except.ok (zeroValue f.kind)
  else
    match Loader.setField l env f.kind f.name (refStringOf (parseTag f.tag)) with
    | Except.ok v => Except.ok v
    | Except.error _ =>
      if (parseTag f.tag).required then
        Except.error (GsmError.requiredField f.name (parseTag f.tag).secretName)
      else
        Except.ok (zeroValue f.kind)

/-- `Loader.loadStruct` from `loader.go`: fields in declaration order, the
first surfaced `RequiredFieldError` aborts the whole load. -/
def Loader.loadStruct (l : Loader) (env : String → Option String) :
    List FieldSpec → Except GsmError (List FieldValue)
  | [] => Except.ok []
  | f :: rest => do
    let v ← Loader.processField l env f
    let vs ← Loader.loadStruct l env rest
    Except.ok (v :: vs)

/-- `Loader.Load` on a valid (settable struct pointer) target; the
`ErrInvalidTarget` path is a `reflect` validity check ahead of all field
processing and is outside the claims. -/
def Loader.Load (l : Loader) (env : String → Option String) (fields : List FieldSpec) :
    Except GsmError (List FieldValue) :=
  Loader.loadStruct l env fields

/-! ### Shared concrete instances used by witnesses -/

/-- An environment with no variables set. -/
def envEmpty : String → Option String := fun _ => none

/-- The environment of the precedence test: `K = v1`. -/
def envK : String → Option String := fun k => if k = "K" then some "v1" else none

/-- A secret source that answers `v2` for every key. -/
def clientV2 : Client := { getSecret := fun _ => some "v2" }

/-- A secret source that fails on every fetch. -/
def clientFailing : Client := { getSecret := fun _ => none }

/-- A loader with no secret-store client. -/
def loaderNoClient : Loader := NewLoader none [WithSecretManagerEnabled false]

/-! ### Parser lemmas -/

/-- `Parse` reports a reference exactly when `IsSecretReference` does. -/
lemma parse_isSecretRef (value : String) :
    (Parse value).IsSecretRef = IsSecretReference value := by
  unfold Parse IsSecretReference
  by_cases hb : secretPrefixChars.isPrefixOf value.data = true
  · rw [hb, if_pos rfl]
    cases hsplit : splitOnFirstAux separatorChars (value.data.drop secretPrefixChars.length) with
    | some p => obtain ⟨a, b⟩ := p; rfl
    | none => rfl
  · rw [Bool.not_eq_true] at hb
    simp only [hb, Bool.false_eq_true, if_false]

/-- A matching separator check only looks at the first two characters, so it
is the same over `a ++ ['|']` and `a ++ '|' :: '|' :: b`. -/
lemma isPrefixOf_sep_congr (c : Char) (a b : List Char) :
    List.isPrefixOf separatorChars (c :: (a ++ ['|'])) =
      List.isPrefixOf separatorChars (c :: (a ++ '|' :: '|' :: b)) := by
  cases a with
  | nil => simp [separatorChars, List.isPrefixOf]
  | cons d a => simp [separatorChars, List.isPrefixOf]

/-- When the separator does not occur in `a ++ ['|']`, the first separator
occurrence in `a ++ "||" ++ b` is the explicit one, so the split yields
`(a, b)`. -/
lemma splitSep_append (a b : List Char)
    (h : splitOnFirstAux separatorChars (a ++ ['|']) = none) :
    splitOnFirstAux separatorChars (a ++ '|' :: '|' :: b) = some (a, b) := by
  induction a with
  | nil => simp [splitOnFirstAux, separatorChars, List.isPrefixOf]
  | cons c a ih =>
    rw [List.cons_append] at h ⊢
    rw [splitOnFirstAux] at h ⊢
    by_cases hp : List.isPrefixOf separatorChars (c :: (a ++ ['|'])) = true
    · simp [hp] at h
    · rw [Bool.not_eq_true] at hp
      rw [hp] at h
      rw [← isPrefixOf_sep_congr c a b, hp]
      simp only [Bool.false_eq_true, if_false] at h ⊢
      cases hrec : splitOnFirstAux separatorChars (a ++ ['|']) with
      | some p => rw [hrec] at h; simp at h
      | none => rw [ih hrec]

/-- The prefix of an append is a prefix. -/
lemma isPrefixOf_append_self (p l : List Char) : p.isPrefixOf (p ++ l) = true := by
  rw [List.isPrefixOf_iff_prefix]
  exact List.prefix_append p l

/-- C8: for every expression starting with the reference prefix, `Parse`
strips the prefix and splits on the first `"||"` only: the part before it is
trimmed and becomes the key, everything after it becomes the fallback
untrimmed even when it contains further separators, and `HasDefault` is set
exactly when a separator is present, including with an empty fallback. -/
theorem c8_parse_first_sep_only :
    (∀ k fb : String, splitOnFirstAux separatorChars (k.data ++ ['|']) = none →
       Parse ("sm://" ++ k ++ "||" ++ fb) =
         { SecretName := goTrimSpace k, DefaultValue := fb,
           HasDefault := true, IsSecretRef := true }) ∧
    (∀ k : String, splitOnFirstAux separatorChars k.data = none →
       Parse ("sm://" ++ k) =
         { SecretName := goTrimSpace k, DefaultValue := "",
           HasDefault := false, IsSecretRef := true }) ∧
    Parse "sm://" =
      { SecretName := "", DefaultValue := "", HasDefault := false, IsSecretRef := true } ∧
    Parse "sm://K||" =
      { SecretName := "K", DefaultValue := "", HasDefault := true, IsSecretRef := true } ∧
    Parse "sm://API_KEY||value||with||separator" =
      { SecretName := "API_KEY", DefaultValue := "value||with||separator",
        HasDefault := true, IsSecretRef := true } := by
  refine ⟨?_, ?_, by decide, by decide, by decide⟩
  · intro k fb h
    have hdata : ("sm://" ++ k ++ "||" ++ fb).data =
        secretPrefixChars ++ (k.data ++ '|' :: '|' :: fb.data) := by
      simp [String.data_append, secretPrefixChars]
    unfold Parse
    rw [hdata, isPrefixOf_append_self, if_pos rfl, List.drop_left,
      splitSep_append k.data fb.data h]
    rfl
  · intro k h
    have hdata : ("sm://" ++ k).data = secretPrefixChars ++ k.data := by
      simp [String.data_append, secretPrefixChars]
    unfold Parse
    rw [hdata, isPrefixOf_append_self, if_pos rfl, List.drop_left, h]
    rfl

/-- C8 witness. -/
theorem c8_parse_first_sep_only_witness :
    Parse "sm://DB ||a||b" =
      { SecretName := "DB", DefaultValue := "a||b",
        HasDefault := true, IsSecretRef := true } ∧
    Parse "sm://DB" =
      { SecretName := "DB", DefaultValue := "",
        HasDefault := false, IsSecretRef := true } := by
  constructor
  · have h := c8_parse_first_sep_only.1 "DB " "a||b" (by decide)
    simpa using h
  · exact c8_parse_first_sep_only.2.1 "DB" (by decide)

/-- C9: a string without the reference prefix parses to an empty key with
itself as fallback and `IsSecretRef` false, and `Resolve` returns it
unchanged for every resolver configuration, environment and client — no
lookup can influence the result. -/
theorem c9_plain_value_identity (s : String) (h : IsSecretReference s = false) :
    Parse s = { SecretName := "", DefaultValue := s,
                HasDefault := true, IsSecretRef := false } ∧
    ∀ (r : Resolver) (env : String → Option String),
      Resolver.Resolve r env s = Except.ok s := by
  have hp : Parse s =
      { SecretName := "", DefaultValue := s, HasDefault := true, IsSecretRef := false } := by
    unfold IsSecretReference at h
    unfold Parse
    rw [if_neg]
    simp [h]
  refine ⟨hp, fun r env => ?_⟩
  unfold Resolver.Resolve
  rw [hp]
  rfl

/-- C9 witness. -/
theorem c9_plain_value_identity_witness :
    Parse "plain_value" =
      { SecretName := "", DefaultValue := "plain_value",
        HasDefault := true, IsSecretRef := false } ∧
    Resolver.Resolve (NewResolver (some clientV2) []) envK "plain_value" =
      Except.ok "plain_value" := by
  have h := c9_plain_value_identity "plain_value" (by decide)
  exact ⟨h.1, h.2 _ _⟩

/-! ### Resolver lemmas -/

lemma resolveTail_some {r : Resolver} {ref : SecretRef} {v : String}
    (hs : Resolver.secretManagerTier r ref.SecretName = some v) :
    Resolver.resolveTail r ref = Except.ok v := by
  unfold Resolver.resolveTail
  rw [hs]

lemma resolveTail_default {r : Resolver} {ref : SecretRef}
    (hs : Resolver.secretManagerTier r ref.SecretName = none)
    (hd : ref.HasDefault = true) :
    Resolver.resolveTail r ref = Except.ok ref.DefaultValue := by
  unfold Resolver.resolveTail
  rw [hs, hd]
  rfl

lemma resolveTail_err {r : Resolver} {ref : SecretRef}
    (hs : Resolver.secretManagerTier r ref.SecretName = none)
    (hd : ref.HasDefault = false) :
    Resolver.resolveTail r ref =
      Except.error (GsmError.secretNotFound ref.SecretName) := by
  unfold Resolver.resolveTail
  rw [hs, hd]
  rfl

/-- With the environment tier yielding nothing non-empty, `Resolve` on a
reference is its fallthrough. -/
lemma resolve_of_env_absent {r : Resolver} {env : String → Option String} {value : String}
    (href : (Parse value).IsSecretRef = true)
    (h : ∀ v, env (r.envPrefix ++ (Parse value).SecretName) = some v → v = "") :
    Resolver.Resolve r env value = Resolver.resolveTail r (Parse value) := by
  unfold Resolver.Resolve
  rw [href]
  cases henv : env (r.envPrefix ++ (Parse value).SecretName) with
  | none => rfl
  | some v =>
    have hv := h v henv
    subst hv
    rfl

/-- With the environment tier yielding a non-empty value, `Resolve` on a
reference short-circuits with it. -/
lemma resolve_of_env_present {r : Resolver} {env : String → Option String} {value v : String}
    (href : (Parse value).IsSecretRef = true)
    (henv : env (r.envPrefix ++ (Parse value).SecretName) = some v) (hne : v ≠ "") :
    Resolver.Resolve r env value = Except.ok v := by
  unfold Resolver.Resolve
  rw [href, henv]
  simp [hne]

/-- C1: on a managed reference the environment tier is consulted first at
`envPrefix ++ key`: a present non-empty value is returned at once, whatever
the secret source or fallback would give; a present-but-empty value makes
`Resolve` behave exactly as if the variable were absent, falling through to
the later tiers. -/
theorem c1_env_tier_first (r : Resolver) (env : String → Option String) (value : String)
    (h : IsSecretReference value = true) :
    (∀ v, env (r.envPrefix ++ (Parse value).SecretName) = some v → v ≠ "" →
       Resolver.Resolve r env value = Except.ok v) ∧
    (env (r.envPrefix ++ (Parse value).SecretName) = some "" →
       Resolver.Resolve r env value =
         Resolver.Resolve r
           (fun k => if k = r.envPrefix ++ (Parse value).SecretName then none else env k)
           value) := by
  have href : (Parse value).IsSecretRef = true := by
    rw [parse_isSecretRef, h]
  constructor
  · intro v hv hne
    exact resolve_of_env_present href hv hne
  · intro hv
    rw [resolve_of_env_absent href (fun w hw => by
      rw [hv] at hw
      exact (Option.some.inj hw).symm)]
    rw [resolve_of_env_absent href (fun w hw => by simp at hw)]

/-- C1 witness: env `K = v1` beats a secret source answering `v2` and the
fallback `v3`. -/
theorem c1_env_tier_first_witness :
    Resolver.Resolve (NewResolver (some clientV2) []) envK "sm://K||v3" =
      Except.ok "v1" := by
  have h := (c1_env_tier_first (NewResolver (some clientV2) []) envK "sm://K||v3"
    (by decide)).1 "v1"
  exact h (by decide) (by decide)

/-- C2: on a managed reference, with the environment tier empty, a failed
(or disabled, or client-less) secret tier is never fatal by itself: with a
fallback present `Resolve` succeeds with the fallback; a successful secret
fetch is returned even when empty; `Resolve` errors exactly when all three
tiers yield nothing, and the only error it ever returns is
`SecretNotFoundError` carrying the parsed key. -/
theorem c2_secret_failure_not_fatal (r : Resolver) (env : String → Option String)
    (value : String) (h : IsSecretReference value = true) :
    ((∀ v, env (r.envPrefix ++ (Parse value).SecretName) = some v → v = "") →
       Resolver.secretManagerTier r (Parse value).SecretName = none →
       (Parse value).HasDefault = true →
       Resolver.Resolve r env value = Except.ok (Parse value).DefaultValue) ∧
    ((∀ v, env (r.envPrefix ++ (Parse value).SecretName) = some v → v = "") →
       ∀ v, Resolver.secretManagerTier r (Parse value).SecretName = some v →
         Resolver.Resolve r env value = Except.ok v) ∧
    (Resolver.Resolve r env value =
        Except.error (GsmError.secretNotFound (Parse value).SecretName) ↔
      ((∀ v, env (r.envPrefix ++ (Parse value).SecretName) = some v → v = "") ∧
       Resolver.secretManagerTier r (Parse value).SecretName = none ∧
       (Parse value).HasDefault = false)) ∧
    (∀ e, Resolver.Resolve r env value = Except.error e →
       e = GsmError.secretNotFound (Parse value).SecretName) := by
  have href : (Parse value).IsSecretRef = true := by
    rw [parse_isSecretRef, h]
  refine ⟨?_, ?_, ⟨?_, ?_⟩, ?_⟩
  · intro habs hsm hd
    rw [resolve_of_env_absent href habs, resolveTail_default hsm hd]
  · intro habs v hsm
    rw [resolve_of_env_absent href habs, resolveTail_some hsm]
  · intro herr
    cases henv : env (r.envPrefix ++ (Parse value).SecretName) with
    | some v =>
      by_cases hv : v = ""
      · subst hv
        have habs : ∀ w, env (r.envPrefix ++ (Parse value).SecretName) = some w → w = "" := by
          intro w hw
          rw [henv] at hw
          exact (Option.some.inj hw).symm
        rw [resolve_of_env_absent href habs] at herr
        refine ⟨fun w hw => (Option.some.inj hw).symm, ?_⟩
        cases hsm : Resolver.secretManagerTier r (Parse value).SecretName with
        | some w => rw [resolveTail_some hsm] at herr; exact absurd herr (by simp)
        | none =>
          cases hd : (Parse value).HasDefault with
          | true => rw [resolveTail_default hsm hd] at herr; exact absurd herr (by simp)
          | false => exact ⟨rfl, rfl⟩
      · rw [resolve_of_env_present href henv hv] at herr
        exact absurd herr (by simp)
    | none =>
      have habs : ∀ w, env (r.envPrefix ++ (Parse value).SecretName) = some w → w = "" := by
        intro w hw
        rw [henv] at hw
        exact absurd hw (by simp)
      rw [resolve_of_env_absent href habs] at herr
      refine ⟨fun w hw => by simp at hw, ?_⟩
      cases hsm : Resolver.secretManagerTier r (Parse value).SecretName with
      | some w => rw [resolveTail_some hsm] at herr; exact absurd herr (by simp)
      | none =>
        cases hd : (Parse value).HasDefault with
        | true => rw [resolveTail_default hsm hd] at herr; exact absurd herr (by simp)
        | false => exact ⟨rfl, rfl⟩
  · rintro ⟨habs, hsm, hd⟩
    rw [resolve_of_env_absent href habs, resolveTail_err hsm hd]
  · intro e herr
    cases henv : env (r.envPrefix ++ (Parse value).SecretName) with
    | some v =>
      by_cases hv : v = ""
      · subst hv
        have habs : ∀ w, env (r.envPrefix ++ (Parse value).SecretName) = some w → w = "" := by
          intro w hw
          rw [henv] at hw
          exact (Option.some.inj hw).symm
        rw [resolve_of_env_absent href habs] at herr
        cases hsm : Resolver.secretManagerTier r (Parse value).SecretName with
        | some w => rw [resolveTail_some hsm] at herr; exact absurd herr (by simp)
        | none =>
          cases hd : (Parse value).HasDefault with
          | true => rw [resolveTail_default hsm hd] at herr; exact absurd herr (by simp)
          | false =>
            rw [resolveTail_err hsm hd] at herr
            exact (Except.error.inj herr).symm
      · rw [resolve_of_env_present href henv hv] at herr
        exact absurd herr (by simp)
    | none =>
      have habs : ∀ w, env (r.envPrefix ++ (Parse value).SecretName) = some w → w = "" := by
        intro w hw
        rw [henv] at hw
        exact absurd hw (by simp)
      rw [resolve_of_env_absent href habs] at herr
      cases hsm : Resolver.secretManagerTier r (Parse value).SecretName with
      | some w => rw [resolveTail_some hsm] at herr; exact absurd herr (by simp)
      | none =>
        cases hd : (Parse value).HasDefault with
        | true => rw [resolveTail_default hsm hd] at herr; exact absurd herr (by simp)
        | false =>
          rw [resolveTail_err hsm hd] at herr
          exact (Except.error.inj herr).symm

/-- C2 witness: a bound, enabled, failing secret source with no env value
falls through to the fallback `v3`; without a fallback the same resolver
fails with `SecretNotFoundError`. -/
theorem c2_secret_failure_not_fatal_witness :
    Resolver.Resolve (NewResolver (some clientFailing) []) envEmpty "sm://K||v3" =
      Except.ok "v3" ∧
    Resolver.Resolve (NewResolver (some clientFailing) []) envEmpty "sm://K" =
      Except.error (GsmError.secretNotFound "K") := by
  constructor
  · have h := (c2_secret_failure_not_fatal (NewResolver (some clientFailing) [])
      envEmpty "sm://K||v3" (by decide)).1
    exact h (fun v hv => by exact absurd hv (by simp [envEmpty])) rfl rfl
  · have h := (c2_secret_failure_not_fatal (NewResolver (some clientFailing) [])
      envEmpty "sm://K" (by decide)).2.2.1.2
    exact h ⟨fun v hv => by exact absurd hv (by simp [envEmpty]), rfl, rfl⟩

/-- With no client bound, the guarded secret tier yields nothing whatever
the enable flag says: the `r.client != nil` conjunct protects the call. -/
lemma secretManagerTier_client_none {r : Resolver} (h : r.client = none)
    (key : String) : Resolver.secretManagerTier r key = none := by
  unfold Resolver.secretManagerTier
  rw [h]
  cases r.secretManagerEnabled <;> rfl

lemma resolveTail_flag_irrelevant {r : Resolver} (h : r.client = none) (b : Bool)
    (ref : SecretRef) :
    Resolver.resolveTail { r with secretManagerEnabled := b } ref =
      Resolver.resolveTail { r with secretManagerEnabled := false } ref := by
  unfold Resolver.resolveTail
  rw [secretManagerTier_client_none (r := { r with secretManagerEnabled := b }) h,
    secretManagerTier_client_none (r := { r with secretManagerEnabled := false }) h]

lemma resolve_flag_irrelevant {r : Resolver} (h : r.client = none) (b : Bool)
    (env : String → Option String) (value : String) :
    Resolver.Resolve { r with secretManagerEnabled := b } env value =
      Resolver.Resolve { r with secretManagerEnabled := false } env value := by
  unfold Resolver.Resolve
  cases href : (Parse value).IsSecretRef with
  | false => rfl
  | true =>
    simp only [href]
    cases henv : env (r.envPrefix ++ (Parse value).SecretName) with
    | some v =>
      by_cases hv : v = ""
      · subst hv
        simp [henv, resolveTail_flag_irrelevant h b]
      · simp [henv, hv]
    | none => simp [henv, resolveTail_flag_irrelevant h b]

lemma resolveSliceTail_flag_irrelevant {r : Resolver} (h : r.client = none) (b : Bool)
    (ref : SecretRef) :
    Resolver.resolveSliceTail { r with secretManagerEnabled := b } ref =
      Resolver.resolveSliceTail { r with secretManagerEnabled := false } ref := by
  unfold Resolver.resolveSliceTail
  rw [secretManagerTier_client_none (r := { r with secretManagerEnabled := b }) h,
    secretManagerTier_client_none (r := { r with secretManagerEnabled := false }) h]

lemma resolveEach_flag_irrelevant {r : Resolver} (h : r.client = none) (b : Bool)
    (env : String → Option String) (values : List String) :
    Resolver.resolveEach { r with secretManagerEnabled := b } env values =
      Resolver.resolveEach { r with secretManagerEnabled := false } env values := by
  induction values with
  | nil => rfl
  | cons v rest ih =>
    unfold Resolver.resolveEach
    rw [resolve_flag_irrelevant h b, ih]

/-- C10: a resolver holding no client never consults the secret tier — its
behaviour is independent of the `secretManagerEnabled` flag even when
`WithSecretManagerEnabled true` was applied, for both `Resolve` and
`ResolveSlice` (so the absent client is never dereferenced) — and
`NewResolver` with no options enables the tier exactly when a client is
supplied. -/
theorem c10_nil_client_safe :
    (∀ (r : Resolver), r.client = none → ∀ (b : Bool) (env : String → Option String)
       (value : String),
       Resolver.Resolve { r with secretManagerEnabled := b } env value =
         Resolver.Resolve { r with secretManagerEnabled := false } env value) ∧
    (∀ (r : Resolver), r.client = none → ∀ (b : Bool) (env : String → Option String)
       (values : List String),
       Resolver.ResolveSlice { r with secretManagerEnabled := b } env values =
         Resolver.ResolveSlice { r with secretManagerEnabled := false } env values) ∧
    (∀ (env : String → Option String) (value : String) (p : String),
       Resolver.Resolve (NewResolver none [WithSecretManagerEnabled true, WithEnvPrefix p])
           env value =
         Resolver.Resolve (NewResolver none [WithSecretManagerEnabled false, WithEnvPrefix p])
           env value) ∧
    (∀ c : Option Client, (NewResolver c []).secretManagerEnabled = c.isSome) := by
  have hslice : ∀ (r : Resolver), r.client = none → ∀ (b : Bool)
      (env : String → Option String) (values : List String),
      Resolver.ResolveSlice { r with secretManagerEnabled := b } env values =
        Resolver.ResolveSlice { r with secretManagerEnabled := false } env values := by
    intro r h b env values
    match values with
    | [] => rfl
    | [v] =>
      simp only [Resolver.ResolveSlice]
      cases hv : IsSecretReference v with
      | false => simp [hv, resolveEach_flag_irrelevant h b]
      | true =>
        simp only [hv, if_pos]
        cases henv : env (r.envPrefix ++ (Parse v).SecretName) with
        | some w =>
          by_cases hw : w = ""
          · subst hw
            simp [henv, resolveSliceTail_flag_irrelevant h b]
          · simp [henv, hw]
        | none => simp [henv, resolveSliceTail_flag_irrelevant h b]
    | v :: w :: rest =>
      exact resolveEach_flag_irrelevant h b env (v :: w :: rest)
  refine ⟨fun r h b env value => resolve_flag_irrelevant h b env value, hslice,
    fun env value p => ?_, fun c => ?_⟩
  · have h1 : NewResolver none [WithSecretManagerEnabled true, WithEnvPrefix p] =
        { client := none, secretManagerEnabled := true, envPrefix := p } := rfl
    have h2 : NewResolver none [WithSecretManagerEnabled false, WithEnvPrefix p] =
        { client := none, secretManagerEnabled := false, envPrefix := p } := rfl
    rw [h1, h2]
    exact resolve_flag_irrelevant
      (r := { client := none, secretManagerEnabled := false, envPrefix := p })
      rfl true env value
  · cases c <;> rfl

/-- C10 witness. -/
theorem c10_nil_client_safe_witness :
    Resolver.Resolve (NewResolver none [WithSecretManagerEnabled true, WithEnvPrefix ""])
        envEmpty "sm://K||d" =
      Resolver.Resolve (NewResolver none [WithSecretManagerEnabled false, WithEnvPrefix ""])
        envEmpty "sm://K||d" ∧
    (NewResolver (some clientV2) []).secretManagerEnabled = true ∧
    (NewResolver none []).secretManagerEnabled = false := by
  exact ⟨c10_nil_client_safe.2.2.1 envEmpty "sm://K||d" "",
    c10_nil_client_safe.2.2.2 (some clientV2),
    c10_nil_client_safe.2.2.2 none⟩

/-- The single-reference fallthrough of `ResolveSlice` is the scalar
fallthrough with the obtained string fed through the array parser. -/
lemma resolveSliceTail_eq_bind (r : Resolver) (ref : SecretRef) :
    Resolver.resolveSliceTail r ref =
      Except.bind (Resolver.resolveTail r ref) parseArrayValue := by
  unfold Resolver.resolveSliceTail Resolver.resolveTail
  cases Resolver.secretManagerTier r ref.SecretName with
  | some v => rfl
  | none => cases ref.HasDefault <;> rfl

/-- The per-element loop is `mapM` of the scalar resolve. -/
lemma resolveEach_eq_mapM (r : Resolver) (env : String → Option String)
    (values : List String) :
    Resolver.resolveEach r env values = values.mapM (Resolver.Resolve r env) := by
  induction values with
  | nil => rfl
  | cons v rest ih =>
    rw [List.mapM_cons, ← ih]
    rfl

/-- C4: `ResolveSlice` returns the empty list on empty input; on a single
managed reference it runs the same three tiers as scalar resolution with
the obtained string fed through the array-value parser; on a single
non-reference element or on several elements it resolves each element
independently through scalar `Resolve`, positionally, with the first
failure aborting the call (the semantics of `mapM` over `Except`). -/
theorem c4_resolveSlice_shape (r : Resolver) (env : String → Option String) :
    (Resolver.ResolveSlice r env [] = Except.ok []) ∧
    (∀ v, IsSecretReference v = true →
       Resolver.ResolveSlice r env [v] =
         Except.bind (Resolver.Resolve r env v) parseArrayValue) ∧
    (∀ v, IsSecretReference v = false →
       Resolver.ResolveSlice r env [v] =
         Except.map (fun x => [x]) (Resolver.Resolve r env v)) ∧
    (∀ v w rest, Resolver.ResolveSlice r env (v :: w :: rest) =
       (v :: w :: rest).mapM (Resolver.Resolve r env)) := by
  refine ⟨rfl, ?_, ?_, ?_⟩
  · intro v hv
    have href : (Parse v).IsSecretRef = true := by
      rw [parse_isSecretRef, hv]
    simp only [Resolver.ResolveSlice, hv, if_true]
    cases henv : env (r.envPrefix ++ (Parse v).SecretName) with
    | some w =>
      by_cases hw : w = ""
      · subst hw
        rw [resolve_of_env_absent href (fun u hu => by
          rw [henv] at hu
          exact (Option.some.inj hu).symm)]
        simp [resolveSliceTail_eq_bind]
      · rw [resolve_of_env_present href henv hw]
        simp only [hw, ne_eq, not_false_iff, if_true]
        rfl
    | none =>
      rw [resolve_of_env_absent href (fun u hu => by
        rw [henv] at hu
        exact absurd hu (by simp))]
      simp [resolveSliceTail_eq_bind]
  · intro v hv
    simp only [Resolver.ResolveSlice, hv, Bool.false_eq_true, if_false]
    cases hres : Resolver.Resolve r env v with
    | ok a => simp only [Resolver.resolveEach, hres]; rfl
    | error e => simp only [Resolver.resolveEach, hres]; rfl
  · intro v w rest
    exact resolveEach_eq_mapM r env (v :: w :: rest)

/-- C4 witness. -/
theorem c4_resolveSlice_shape_witness :
    Resolver.ResolveSlice (NewResolver none []) envK ["sm://K"] =
      Except.bind (Resolver.Resolve (NewResolver none []) envK "sm://K") parseArrayValue ∧
    Resolver.ResolveSlice (NewResolver none []) envK ["plain"] =
      Except.map (fun x => [x]) (Resolver.Resolve (NewResolver none []) envK "plain") ∧
    Resolver.ResolveSlice (NewResolver none []) envK ["sm://K||a,b", "plain"] =
      ["sm://K||a,b", "plain"].mapM (Resolver.Resolve (NewResolver none []) envK) := by
  have h := c4_resolveSlice_shape (NewResolver none []) envK
  exact ⟨h.2.1 "sm://K" (by decide), h.2.2.1 "plain" (by decide),
    h.2.2.2 "sm://K||a,b" "plain" []⟩

/-- C5 (amended): after trimming, the bracket shape is checked before the
comma shape; a bracketed value goes through strict JSON-array-of-strings
parsing and a malformed one fails with the wrapped JSON-parse error (the
only error this function ever returns — not the `InvalidFormatError` type);
otherwise a comma-bearing value is split, trimmed and purged of empties;
otherwise a non-empty value is a singleton and the empty value the empty
list. -/
theorem c5_parseArrayValue_shape (value : String) :
    (List.isPrefixOf ['['] (goTrimList value.data) = true →
       (jsonUnmarshalStringArray (String.mk (goTrimList value.data)) = none →
          parseArrayValue value = Except.error GsmError.jsonArrayParseError) ∧
       (∀ arr, jsonUnmarshalStringArray (String.mk (goTrimList value.data)) = some arr →
          parseArrayValue value = Except.ok arr)) ∧
    (List.isPrefixOf ['['] (goTrimList value.data) = false →
       (goTrimList value.data).contains ',' = true →
       parseArrayValue value =
         Except.ok (((splitOnChar ',' (goTrimList value.data)).map
           (fun p => String.mk (goTrimList p))).filter (fun s => s ≠ ""))) ∧
    (List.isPrefixOf ['['] (goTrimList value.data) = false →
       (goTrimList value.data).contains ',' = false →
       goTrimList value.data ≠ [] →
       parseArrayValue value = Except.ok [String.mk (goTrimList value.data)]) ∧
    (goTrimList value.data = [] → parseArrayValue value = Except.ok []) ∧
    (∀ e, parseArrayValue value = Except.error e → e = GsmError.jsonArrayParseError) := by
  refine ⟨?_, ?_, ?_, ?_, ?_⟩
  · intro hb
    constructor
    · intro hj
      unfold parseArrayValue
      rw [hb, if_pos rfl, hj]
    · intro arr hj
      unfold parseArrayValue
      rw [hb, if_pos rfl, hj]
  · intro hb hc
    unfold parseArrayValue
    rw [hb]
    simp only [Bool.false_eq_true, if_false]
    rw [hc, if_pos rfl]
  · intro hb hc hne
    unfold parseArrayValue
    rw [hb, hc]
    simp [hne]
  · intro hz
    unfold parseArrayValue
    rw [hz]
    rfl
  · intro e he
    unfold parseArrayValue at he
    by_cases hb : List.isPrefixOf ['['] (goTrimList value.data) = true
    · rw [hb, if_pos rfl] at he
      cases hj : jsonUnmarshalStringArray (String.mk (goTrimList value.data)) with
      | some arr => rw [hj] at he; exact absurd he (by simp)
      | none => rw [hj] at he; exact (Except.error.inj he).symm
    · rw [Bool.not_eq_true] at hb
      rw [hb] at he
      simp only [Bool.false_eq_true, if_false] at he
      by_cases hc : (goTrimList value.data).contains ',' = true
      · rw [hc, if_pos rfl] at he
        exact absurd he (by simp)
      · rw [Bool.not_eq_true] at hc
        rw [hc] at he
        simp only [Bool.false_eq_true, if_false] at he
        by_cases hne : goTrimList value.data = []
        · simp [hne] at he
        · simp [hne] at he

/-- C5 witness: the four shapes on concrete inputs, through the amended
theorem. -/
theorem c5_parseArrayValue_shape_witness :
    parseArrayValue "[\"a\", \"b\"]" = Except.ok ["a", "b"] ∧
    parseArrayValue "a , b,,c" = Except.ok ["a", "b", "c"] ∧
    parseArrayValue "single" = Except.ok ["single"] ∧
    parseArrayValue " " = Except.ok [] := by
  refine ⟨?_, ?_, ?_, ?_⟩
  · exact ((c5_parseArrayValue_shape "[\"a\", \"b\"]").1 rfl).2 ["a", "b"] rfl
  · exact (c5_parseArrayValue_shape "a , b,,c").2.1 rfl rfl
  · exact (c5_parseArrayValue_shape "single").2.2.1 rfl rfl (by decide)
  · exact (c5_parseArrayValue_shape " ").2.2.2.1 rfl

/-- C5 counterexample: on the malformed bracketed value `["a","b"` the code
fails with the anonymous wrapped JSON-parse error, not with an
`InvalidFormatError` carrying the offending text as the claim states. -/
theorem c5_parseArrayValue_counterexample :
    parseArrayValue "[\"a\",\"b\"" = Except.error GsmError.jsonArrayParseError ∧
    (match parseArrayValue "[\"a\",\"b\"" with
      | Except.error (GsmError.invalidFormat _ _) => False
      | _ => True) := by
  exact ⟨rfl, trivial⟩

/-! ### Tag parser lemmas -/

lemma getLast?_cons_isSome {α : Type} (a : α) (l : List α) :
    ((a :: l).getLast?).isSome = true := by
  induction l generalizing a with
  | nil => rfl
  | cons b t ih =>
    rw [List.getLast?_cons_cons]
    exact ih b

lemma getLast?_cons_of_some {α : Type} (a : α) {l : List α} {d : α}
    (h : l.getLast? = some d) : (a :: l).getLast? = some d := by
  cases l with
  | nil => simp at h
  | cons b t =>
    rw [List.getLast?_cons_cons]
    exact h

lemma getLast?_cons_of_none {α : Type} (a : α) {l : List α}
    (h : l.getLast? = none) : (a :: l).getLast? = some a := by
  cases l with
  | nil => rfl
  | cons b t =>
    have hs := getLast?_cons_isSome b t
    rw [h] at hs
    simp at hs

/-- The trimmed `default=` segment the Go loop leaves in force: the last
one, since each match overwrites `info.defaultValue`. -/
def lastDefaultSegment (segs : List (List Char)) : Option (List Char) :=
  ((segs.map goTrimList).filter
    (fun p => List.isPrefixOf (String.data "default=") p)).getLast?

/-- Behaviour of the `parseTag` segment loop over any starting accumulator:
the key is untouched, `required` is set when any trimmed segment is the
literal, `hasDefault` when any trimmed segment starts with `default=`, and
the fallback comes from the last such segment. -/
lemma parseTag_foldl (segs : List (List Char)) (info : tagInfo) :
    (segs.foldl parseTagStep info).secretName = info.secretName ∧
    (segs.foldl parseTagStep info).required =
      (info.required || segs.any (fun p => goTrimList p = String.data "required")) ∧
    (segs.foldl parseTagStep info).hasDefault =
      (info.hasDefault || segs.any (fun p =>
        List.isPrefixOf (String.data "default=") (goTrimList p))) ∧
    (∀ d, lastDefaultSegment segs = some d →
       (segs.foldl parseTagStep info).defaultValue = String.mk (d.drop 8)) ∧
    (lastDefaultSegment segs = none →
       (segs.foldl parseTagStep info).defaultValue = info.defaultValue) := by
  induction segs generalizing info with
  | nil =>
    refine ⟨rfl, by simp, by simp, ?_, fun _ => rfl⟩
    intro d hd
    simp [lastDefaultSegment] at hd
  | cons p segs ih =>
    have hfold : (p :: segs).foldl parseTagStep info =
        segs.foldl parseTagStep (parseTagStep info p) := rfl
    by_cases hreq : goTrimList p = String.data "required"
    · have hstep : parseTagStep info p = { info with required := true } := by
        unfold parseTagStep
        rw [if_pos hreq]
      have hnd : List.isPrefixOf (String.data "default=") (goTrimList p) = false := by
        rw [hreq]
        decide
      have hlast : lastDefaultSegment (p :: segs) = lastDefaultSegment segs := by
        unfold lastDefaultSegment
        simp [hnd]
      obtain ⟨ih1, ih2, ih3, ih4, ih5⟩ := ih (parseTagStep info p)
      rw [hfold]
      refine ⟨by rw [ih1, hstep], ?_, ?_, ?_, ?_⟩
      · rw [ih2, hstep]
        simp [hreq]
      · rw [ih3, hstep]
        simp [hnd]
      · intro d hd
        exact ih4 d (by rw [← hlast]; exact hd)
      · intro hd
        rw [ih5 (by rw [← hlast]; exact hd), hstep]
    · by_cases hdf : List.isPrefixOf (String.data "default=") (goTrimList p) = true
      · have hstep : parseTagStep info p = { info with defaultValue := String.mk ((goTrimList p).drop 8), hasDefault := true } := by
          unfold parseTagStep
          rw [if_neg hreq, if_pos hdf]
        obtain ⟨ih1, ih2, ih3, ih4, ih5⟩ := ih (parseTagStep info p)
        rw [hfold]
        refine ⟨by rw [ih1, hstep], ?_, ?_, ?_, ?_⟩
        · rw [ih2, hstep]
          simp [hreq]
        · rw [ih3, hstep]
          simp [hdf]
        · intro d hd
          unfold lastDefaultSegment at hd
          rw [List.map_cons, List.filter_cons_of_pos (by simpa using hdf)] at hd
          cases hrest : lastDefaultSegment segs with
          | some d0 =>
            have : (goTrimList p ::
                ((segs.map goTrimList).filter
                  (fun q => List.isPrefixOf (String.data "default=") q))).getLast? =
                some d0 := getLast?_cons_of_some _ hrest
            rw [this] at hd
            exact (Option.some.inj hd) ▸ ih4 d0 hrest
          | none =>
            have : (goTrimList p ::
                ((segs.map goTrimList).filter
                  (fun q => List.isPrefixOf (String.data "default=") q))).getLast? =
                some (goTrimList p) := getLast?_cons_of_none _ hrest
            rw [this] at hd
            rw [ih5 hrest, hstep]
            rw [← Option.some.inj hd]
        · intro hd
          unfold lastDefaultSegment at hd
          rw [List.map_cons, List.filter_cons_of_pos (by simpa using hdf)] at hd
          have hs := getLast?_cons_isSome (goTrimList p)
            ((segs.map goTrimList).filter
              (fun q => List.isPrefixOf (String.data "default=") q))
          rw [hd] at hs
          simp at hs
      · have hstep : parseTagStep info p = info := by
          unfold parseTagStep
          rw [if_neg hreq, if_neg (by simp [hdf])]
        have hnd : List.isPrefixOf (String.data "default=") (goTrimList p) = false := by
          rw [Bool.not_eq_true] at hdf
          exact hdf
        have hlast : lastDefaultSegment (p :: segs) = lastDefaultSegment segs := by
          unfold lastDefaultSegment
          simp [hnd]
        obtain ⟨ih1, ih2, ih3, ih4, ih5⟩ := ih (parseTagStep info p)
        rw [hfold]
        refine ⟨by rw [ih1, hstep], ?_, ?_, ?_, ?_⟩
        · rw [ih2, hstep]
          simp [hreq]
        · rw [ih3, hstep]
          simp [hnd]
        · intro d hd
          exact ih4 d (by rw [← hlast]; exact hd)
        · intro hd
          rw [ih5 (by rw [← hlast]; exact hd), hstep]

/-- C7 (amended): `parseTag` splits on commas, the trimmed first segment is
the key; among the remaining trimmed segments the literal `required` sets
the flag, a segment starting with `default=` sets the fallback to the rest
of that segment with `hasDefault` true — with the **last** such segment
winning when several occur, since each match overwrites the value — and any
other segment is ignored; `"K,default=v,required"` parses to
`{key K, fallback v, hasFallback true, required true}`. -/
theorem c7_parseTag_last_default_wins :
    (∀ tag : String,
       (parseTag tag).secretName =
         String.mk (goTrimList ((splitOnChar ',' tag.data).headD [])) ∧
       (parseTag tag).required =
         ((splitOnChar ',' tag.data).drop 1).any
           (fun p => goTrimList p = String.data "required") ∧
       (parseTag tag).hasDefault =
         ((splitOnChar ',' tag.data).drop 1).any
           (fun p => List.isPrefixOf (String.data "default=") (goTrimList p)) ∧
       (∀ d, lastDefaultSegment ((splitOnChar ',' tag.data).drop 1) = some d →
          (parseTag tag).defaultValue = String.mk (d.drop 8)) ∧
       (lastDefaultSegment ((splitOnChar ',' tag.data).drop 1) = none →
          (parseTag tag).defaultValue = "")) ∧
    parseTag "K,default=v,required" =
      { secretName := "K", defaultValue := "v", hasDefault := true, required := true } := by
  refine ⟨fun tag => ?_, by decide⟩
  obtain ⟨h1, h2, h3, h4, h5⟩ := parseTag_foldl ((splitOnChar ',' tag.data).drop 1)
    { secretName := String.mk (goTrimList ((splitOnChar ',' tag.data).headD [])),
      defaultValue := "", hasDefault := false, required := false }
  unfold parseTag
  exact ⟨h1, by rw [h2]; simp, by rw [h3]; simp, h4, h5⟩

/-- C7 witness. -/
theorem c7_parseTag_last_default_wins_witness :
    (parseTag "A,default=z,x").defaultValue = "z" ∧
    (parseTag "A,x").defaultValue = "" := by
  constructor
  · exact (c7_parseTag_last_default_wins.1 "A,default=z,x").2.2.2.1
      (String.data "default=z") (by decide)
  · exact (c7_parseTag_last_default_wins.1 "A,x").2.2.2.2 (by decide)

/-- C7 counterexample: with two `default=` segments the **last** wins, not
the first as the claim states. -/
theorem c7_parseTag_counterexample :
    parseTag "K,default=a,default=b" =
      { secretName := "K", defaultValue := "b", hasDefault := true, required := false } ∧
    ¬ (parseTag "K,default=a,default=b").defaultValue = "a" := by
  exact ⟨by decide, by decide⟩

/-! ### Struct-loader lemmas -/

lemma processField_required_fail (l : Loader) (env : String → Option String)
    (f : FieldSpec) (e : GsmError)
    (h1 : f.settable = true) (h2 : f.tag ≠ "") (h3 : f.tag ≠ "-")
    (h4 : (parseTag f.tag).secretName ≠ "")
    (h5 : (parseTag f.tag).required = true)
    (h6 : Loader.setField l env f.kind f.name (refStringOf (parseTag f.tag)) =
      Except.error e) :
    Loader.processField l env f =
      Except.error (GsmError.requiredField f.name (parseTag f.tag).secretName) := by
  unfold Loader.processField
  rw [h1, h6]
  simp [h2, h3, h4, h5]

lemma processField_optional_fail (l : Loader) (env : String → Option String)
    (f : FieldSpec) (e : GsmError)
    (h1 : f.settable = true) (h2 : f.tag ≠ "") (h3 : f.tag ≠ "-")
    (h4 : (parseTag f.tag).secretName ≠ "")
    (h5 : (parseTag f.tag).required = false)
    (h6 : Loader.setField l env f.kind f.name (refStringOf (parseTag f.tag)) =
      Except.error e) :
    Loader.processField l env f = Except.ok (zeroValue f.kind) := by
  unfold Loader.processField
  rw [h1, h6]
  simp [h2, h3, h4, h5]

lemma except_bind_ok {ε α β : Type} (a : α) (f : α → Except ε β) :
    Except.bind (Except.ok a) f = f a := rfl

lemma except_bind_error {ε α β : Type} (e : ε) (f : α → Except ε β) :
    Except.bind (Except.error e) f = Except.error e := rfl

lemma loadStruct_cons (l : Loader) (env : String → Option String) (f : FieldSpec)
    (fs : List FieldSpec) :
    Loader.loadStruct l env (f :: fs) =
      Except.bind (Loader.processField l env f) (fun v =>
        Except.bind (Loader.loadStruct l env fs) (fun vs => Except.ok (v :: vs))) := rfl

lemma loadStruct_all_ok (l : Loader) (env : String → Option String)
    (fs : List FieldSpec)
    (h : ∀ g ∈ fs, ∃ v, Loader.processField l env g = Except.ok v) :
    ∃ vs, Loader.loadStruct l env fs = Except.ok vs ∧ vs.length = fs.length := by
  induction fs with
  | nil => exact ⟨[], rfl, rfl⟩
  | cons g fs ih =>
    obtain ⟨v, hv⟩ := h g (List.mem_cons_self g fs)
    obtain ⟨vs, hvs, hlen⟩ := ih (fun g hg => h g (List.mem_cons_of_mem _ hg))
    refine ⟨v :: vs, ?_, by simp [hlen]⟩
    rw [loadStruct_cons, hv, except_bind_ok, hvs, except_bind_ok]

/-- C3: in a struct load, a field whose directive is `required` and whose
resolution or coercion fails aborts the whole load with
`RequiredFieldError` carrying the field name and key (once the fields
before it processed without aborting); a failing non-required field is
swallowed, left at its zero value, and the load continues and succeeds when
every other field processes cleanly. -/
theorem c3_required_field_policy (l : Loader) (env : String → Option String)
    (pre : List FieldSpec) (f : FieldSpec) (post : List FieldSpec) (e : GsmError)
    (h1 : f.settable = true) (h2 : f.tag ≠ "") (h3 : f.tag ≠ "-")
    (h4 : (parseTag f.tag).secretName ≠ "")
    (h6 : Loader.setField l env f.kind f.name (refStringOf (parseTag f.tag)) =
      Except.error e) :
    ((parseTag f.tag).required = true →
       (∀ g ∈ pre, ∃ v, Loader.processField l env g = Except.ok v) →
       Loader.loadStruct l env (pre ++ f :: post) =
         Except.error (GsmError.requiredField f.name (parseTag f.tag).secretName)) ∧
    ((parseTag f.tag).required = false →
       (∀ g ∈ pre ++ post, ∃ v, Loader.processField l env g = Except.ok v) →
       ∃ vs, Loader.loadStruct l env (pre ++ f :: post) = Except.ok vs ∧
         vs.get? pre.length = some (zeroValue f.kind)) := by
  constructor
  · intro hreq hpre
    induction pre with
    | nil =>
      rw [List.nil_append, loadStruct_cons,
        processField_required_fail l env f e h1 h2 h3 h4 hreq h6, except_bind_error]
    | cons g pre ih =>
      obtain ⟨v, hv⟩ := hpre g (List.mem_cons_self g pre)
      rw [List.cons_append, loadStruct_cons, hv, except_bind_ok,
        ih (fun g hg => hpre g (List.mem_cons_of_mem _ hg)), except_bind_error]
  · intro hreq hall
    induction pre with
    | nil =>
      obtain ⟨vs, hvs, hlen⟩ := loadStruct_all_ok l env post
        (fun g hg => hall g (by simpa using hg))
      refine ⟨zeroValue f.kind :: vs, ?_, rfl⟩
      rw [List.nil_append, loadStruct_cons,
        processField_optional_fail l env f e h1 h2 h3 h4 hreq h6, except_bind_ok,
        hvs, except_bind_ok]
    | cons g pre ih =>
      obtain ⟨v, hv⟩ := hall g (List.mem_cons_self g _)
      obtain ⟨vs, hvs, hget⟩ := ih (fun g hg => hall g (by
        simp only [List.cons_append, List.mem_cons, List.mem_append] at hg ⊢
        tauto))
      refine ⟨v :: vs, ?_, ?_⟩
      · rw [List.cons_append, loadStruct_cons, hv, except_bind_ok, hvs, except_bind_ok]
      · simpa using hget

/-- C3 witness fields: a field that resolves fine, and two integer fields
whose fallback fails coercion, one required, one not. -/
def fieldOkStr : FieldSpec :=
  { name := "A", tag := "KA,default=x", kind := FieldKind.str, settable := true }

def fieldBadReq : FieldSpec :=
  { name := "B", tag := "KB,default=nope,required", kind := FieldKind.intKind IntWidth.w64,
    settable := true }

def fieldBadOpt : FieldSpec :=
  { name := "C", tag := "KC,default=nope", kind := FieldKind.intKind IntWidth.w64,
    settable := true }

/-- C3 witness. -/
theorem c3_required_field_policy_witness :
    Loader.loadStruct loaderNoClient envEmpty [fieldOkStr, fieldBadReq] =
      Except.error (GsmError.requiredField "B" "KB") ∧
    (∃ vs, Loader.loadStruct loaderNoClient envEmpty [fieldOkStr, fieldBadOpt] =
      Except.ok vs ∧ vs.get? 1 = some (zeroValue fieldBadOpt.kind)) := by
  constructor
  · exact (c3_required_field_policy loaderNoClient envEmpty [fieldOkStr] fieldBadReq []
      (GsmError.parseIntError "B") rfl (by decide) (by decide) (by decide) rfl).1 rfl
      (fun g hg => by
        have hg2 : g = fieldOkStr := by simpa using hg
        subst hg2
        exact ⟨FieldValue.strVal "x", rfl⟩)
  · exact (c3_required_field_policy loaderNoClient envEmpty [fieldOkStr] fieldBadOpt []
      (GsmError.parseIntError "C") rfl (by decide) (by decide) (by decide) rfl).2 rfl
      (fun g hg => by
        have hg2 : g = fieldOkStr := by simpa using hg
        subst hg2
        exact ⟨FieldValue.strVal "x", rfl⟩)

/-- C6 (amended): integer fields are coerced with a base-10 **64-bit**
parse whatever the declared width; a parse failure (syntax or 64-bit range)
is a coercion error handed to the required-field policy rather than a
crash, while an in-64-bit-range value that overflows the declared width is
silently truncated to that width (two's complement), not an error. -/
theorem c6_int_coercion_64bit (l : Loader) (env : String → Option String)
    (w : IntWidth) (name ref : String) :
    (∀ v, Resolver.Resolve l.resolver env ref = Except.ok v →
       (goParseInt64 v = none →
          Loader.setField l env (FieldKind.intKind w) name ref =
            Except.error (GsmError.parseIntError name)) ∧
       (∀ n, goParseInt64 v = some n →
          Loader.setField l env (FieldKind.intKind w) name ref =
            Except.ok (FieldValue.intVal w (setIntTrunc w n)))) ∧
    (∀ v, Resolver.Resolve l.resolver env ref = Except.ok v →
       (goParseUint64 v = none →
          Loader.setField l env (FieldKind.uintKind w) name ref =
            Except.error (GsmError.parseUintError name)) ∧
       (∀ n, goParseUint64 v = some n →
          Loader.setField l env (FieldKind.uintKind w) name ref =
            Except.ok (FieldValue.uintVal w (setUintTrunc w n)))) ∧
    (∀ (f : FieldSpec) (e : GsmError), f.settable = true → f.tag ≠ "" → f.tag ≠ "-" →
       (parseTag f.tag).secretName ≠ "" →
       Loader.setField l env f.kind f.name (refStringOf (parseTag f.tag)) =
         Except.error e →
       Loader.processField l env f =
         (if (parseTag f.tag).required = true then
            Except.error (GsmError.requiredField f.name (parseTag f.tag).secretName)
          else Except.ok (zeroValue f.kind))) := by
  have hfi : Loader.setField l env (FieldKind.intKind w) name ref =
      Except.bind (Resolver.Resolve l.resolver env ref) (fun value =>
        match goParseInt64 value with
        | none => Except.error (GsmError.parseIntError name)
        | some n => Except.ok (FieldValue.intVal w (setIntTrunc w n))) := rfl
  have hfu : Loader.setField l env (FieldKind.uintKind w) name ref =
      Except.bind (Resolver.Resolve l.resolver env ref) (fun value =>
        match goParseUint64 value with
        | none => Except.error (GsmError.parseUintError name)
        | some n => Except.ok (FieldValue.uintVal w (setUintTrunc w n))) := rfl
  refine ⟨?_, ?_, ?_⟩
  · intro v hres
    exact ⟨fun hp => by rw [hfi, hres, except_bind_ok, hp],
      fun n hp => by rw [hfi, hres, except_bind_ok, hp]⟩
  · intro v hres
    exact ⟨fun hp => by rw [hfu, hres, except_bind_ok, hp],
      fun n hp => by rw [hfu, hres, except_bind_ok, hp]⟩
  · intro f e hs h2 h3 h4 h6
    by_cases hreq : (parseTag f.tag).required = true
    · rw [if_pos hreq]
      exact processField_required_fail l env f e hs h2 h3 h4 hreq h6
    · rw [if_neg hreq]
      rw [Bool.not_eq_true] at hreq
      exact processField_optional_fail l env f e hs h2 h3 h4 hreq h6

/-- C6 witness: a non-numeric fallback on an `int64` field is a coercion
error; a numeric one on a `uint8` field is truncated into the width. -/
theorem c6_int_coercion_64bit_witness :
    Loader.setField loaderNoClient envEmpty (FieldKind.intKind IntWidth.w64) "F"
      "sm://K||abc" = Except.error (GsmError.parseIntError "F") ∧
    Loader.setField loaderNoClient envEmpty (FieldKind.uintKind IntWidth.w8) "G"
      "sm://K||257" = Except.ok (FieldValue.uintVal IntWidth.w8 (setUintTrunc IntWidth.w8 257)) := by
  constructor
  · exact ((c6_int_coercion_64bit loaderNoClient envEmpty IntWidth.w64 "F"
      "sm://K||abc").1 "abc" rfl).1 rfl
  · exact ((c6_int_coercion_64bit loaderNoClient envEmpty IntWidth.w8 "G"
      "sm://K||257").2.1 "257" rfl).2 257 rfl

/-- C6 counterexample: the fallback `300` on an `int8` field is out of the
declared width yet is **not** a coercion error as the claim states: the
64-bit parse succeeds and `SetInt` truncates 300 to 44. -/
theorem c6_int_coercion_64bit_counterexample :
    Loader.setField loaderNoClient envEmpty (FieldKind.intKind IntWidth.w8) "F"
      "sm://K||300" = Except.ok (FieldValue.intVal IntWidth.w8 44) ∧
    (2 ^ 7 : Int) ≤ 300 := by
  exact ⟨rfl, by norm_num⟩

end Gsm
